import Mathlib

/-!
Verification of the map-reduce document-summarization pipeline
(`map-reduce.py`): a shallow embedding of its data model and algorithms,
with theorems settling the specified properties.

Python strings are modelled as `List Char` (a Python `str` is a sequence of
code points); concrete inputs are written as `"...".toList`.  The
language-model backend is an explicit function argument
`backend : Str → Option Str` giving the `content` attribute of the response
for each prompt (`none` models a missing `content` attribute); a raised
Python exception is an `Except.error`.
-/

namespace MapReduce

abbrev Str := List Char

/-- Python `str.strip()`: remove leading and trailing whitespace. -/
def strip (s : Str) : Str :=
  ((s.dropWhile Char.isWhitespace).reverse.dropWhile Char.isWhitespace).reverse

/-- Helper for `token_count`: count maximal non-whitespace runs; the flag
records whether the previous character was inside a word. -/
def countWords : Str → Bool → Nat
  | [], _ => 0
  | c :: cs, inWord =>
    if c.isWhitespace then countWords cs false
    else (if inWord then 0 else 1) + countWords cs true

/-- Python function `token_count` from `reduce_stage` (map-reduce.py:230-231):
`len(text.split())`, the number of whitespace-delimited words
(Python `str.split()` with no argument drops empty fields). -/
def token_count (text : Str) : Nat :=
  countWords text false

/-- Wrapping of one map output in `<output>` tags (map-reduce.py:240). -/
def tagOutput (output : Str) : Str :=
  "<output>\n".toList ++ output ++ "\n</output>".toList

/-- Python `"\n".join` (map-reduce.py:243). -/
def join_nl : List Str → Str
  | [] => []
  | [x] => x
  | x :: y :: xs => x ++ '\n' :: join_nl (y :: xs)

/-- Python function `safe_invoke` (map-reduce.py:43-66): obtain the response content from
the backend and raise when it is missing, empty or whitespace-only
(`content is None or content.strip() == ""`). -/
def safe_invoke (backend : Str → Option Str) (prompt : Str) : Except Str Str :=
  match backend prompt with
  | none => Except.error ("ChatOllama returned an empty response for prompt: ".toList ++ prompt)
  | some content =>
    if strip content = [] then
      Except.error ("ChatOllama returned an empty response for prompt: ".toList ++ prompt)
    else
      Except.ok content

/-- Sequence fallible calls over a list, stopping at the first raised
exception (Python exceptions propagate out of the enclosing loop). -/
def mapE (f : α → Except Str β) : List α → Except Str (List β)
  | [] => Except.ok []
  | a :: l =>
    match f a with
    | Except.error e => Except.error e
    | Except.ok b =>
      match mapE f l with
      | Except.error e => Except.error e
      | Except.ok bs => Except.ok (b :: bs)

/-- Python `f"{n:,}"`: decimal digits grouped in threes by commas.  Helper
working on the reversed digit list; `k` counts digits left in the group. -/
def commaGroup : Str → Nat → Str
  | [], _ => []
  | c :: cs, 0 => ',' :: c :: commaGroup cs 2
  | c :: cs, k + 1 => c :: commaGroup cs k

/-- Python `f"{n:,}"` for a natural number. -/
def commaFmt (n : Nat) : Str :=
  (commaGroup (toString n).toList.reverse 3).reverse

/-- Python `str(n)` / `f"{n}"` for a natural number. -/
def natStr (n : Nat) : Str :=
  (toString n).toList

/-! ## Data model -/

/-- A crawled document (map-reduce.py:91-94): extracted text plus
`file_name` / `file_path` metadata. -/
structure Document where
  page_content : Str
  file_name : Str
  file_path : Str
deriving DecidableEq

/-- A segment produced by `split_documents` (map-reduce.py:116-122): a chunk
of one document's text with the metadata recorded there.
`global_total_chunks` is assigned in a second pass (map-reduce.py:124-125);
until then the field holds the placeholder value `0`. -/
structure SplitDoc where
  page_content : Str
  file_name : Str
  file_path : Str
  chunk_index : Nat
  total_local_chunks : Nat
  global_chunk_index : Nat
  global_total_chunks : Nat
deriving DecidableEq

/-! ## Corpus crawler -/

/-- One file met during `os.walk`, with its basename and full path. -/
structure FileEntry where
  file : Str
  file_path : Str
deriving DecidableEq

/-- Python function `crawl_directory_to_documents` (map-reduce.py:77-101) over the walk-order
list of files.  `extract` models `extract_text` (the external Tika call):
an `Except.error` is a raised exception, caught and logged per file; a file
whose extraction yields empty text is skipped with a warning; `matcher`
models `any(regex.search(file_path) for regex in regex_patterns)`. -/
def crawl_directory_to_documents (extract : Str → Except Str Str)
    (matcher : Str → Bool) : List FileEntry → List Document
  | [] => []
  | f :: fs =>
    if matcher f.file_path then
      match extract f.file_path with
      | Except.error _ => crawl_directory_to_documents extract matcher fs
      | Except.ok text =>
        if text = [] then
          crawl_directory_to_documents extract matcher fs
        else
          { page_content := text, file_name := f.file, file_path := f.file_path }
            :: crawl_directory_to_documents extract matcher fs
    else
      crawl_directory_to_documents extract matcher fs

/-! ## Chunk splitter -/

/-- First pass of `split_documents` (map-reduce.py:112-122): emit the chunks
of one document with 1-based local indices; `g` is the value of
`global_index` before this chunk is emitted. -/
def chunkDocs (doc : Document) (total_local : Nat) :
    List Str → Nat → Nat → List SplitDoc
  | [], _, _ => []
  | c :: rest, g, i =>
    { page_content := c, file_name := doc.file_name, file_path := doc.file_path,
      chunk_index := i, total_local_chunks := total_local,
      global_chunk_index := g + 1, global_total_chunks := 0 }
      :: chunkDocs doc total_local rest (g + 1) (i + 1)

/-- First pass of `split_documents` over all documents; `splitter` models
`RecursiveCharacterTextSplitter.split_text` (external library), `g` the
running `global_index`. -/
def splitAll (splitter : Str → List Str) : List Document → Nat → List SplitDoc
  | [], _ => []
  | d :: ds, g =>
    let chunks := splitter d.page_content
    chunkDocs d chunks.length chunks g 1
      ++ splitAll splitter ds (g + chunks.length)

/-- Python function `split_documents` (map-reduce.py:103-127): split every document, then in
a second pass record the corpus-wide chunk total on every segment. -/
def split_documents (splitter : Str → List Str) (documents : List Document) :
    List SplitDoc :=
  let split_docs := splitAll splitter documents 0
  split_docs.map (fun d => { d with global_total_chunks := split_docs.length })

/-- Modelled from the spec: the segment-splitting algorithm itself is the
external `RecursiveCharacterTextSplitter` (LangChain), whose code is not
part of this repository; only its caller `split_documents` is.  Following
the §4.2 contract — every segment of length ≤ the configured maximum,
adjacent segments of one document overlapping by exactly the configured
overlap (`overlap < size` required), with a hard character cut as the final
fallback — the model emits `size`-character windows advancing by
`size - overlap`; outside the required precondition it returns the text
whole. -/
def splitText (size overlap : Nat) (t : Str) : List Str :=
  if t.length ≤ size ∨ size ≤ overlap then [t]
  else t.take size :: splitText size overlap (t.drop (size - overlap))
termination_by t.length
decreasing_by simp_all [List.length_drop]; omega

/-- Reassembly of segments: keep the first segment whole and drop each
later segment's leading `overlap` characters (the part it shares with its
predecessor), then concatenate. -/
def reassemble (overlap : Nat) : List Str → Str
  | [] => []
  | s :: rest => s ++ (rest.map (fun seg => seg.drop overlap)).flatten

/-- Combined character length of a group of complete files (the
`current_length` accumulator of map-reduce.py:143-153). -/
def sumLen (g : List SplitDoc) : Nat :=
  (g.map (fun c => c.page_content.length)).sum

/-! ## Map stage -/

/-- The "complete" route of `map_stage` (map-reduce.py:137): chunks whose
document was split into exactly one segment.  (The Python
`metadata.get("total_local_chunks", 1)` default never fires on
`split_documents` output, where the key is always present.) -/
def complete_chunks (chunks : List SplitDoc) : List SplitDoc :=
  chunks.filter (fun c => c.total_local_chunks = 1)

/-- The "multi-chunk" route of `map_stage` (map-reduce.py:138): chunks whose
document was split into two or more segments. -/
def multi_chunks (chunks : List SplitDoc) : List SplitDoc :=
  chunks.filter (fun c => c.total_local_chunks > 1)

/-- The grouping loop of `map_stage` (map-reduce.py:141-156), with the loop
state (`groups`, `current_group`, `current_length`) as explicit arguments.
Python's `if current_group` truthiness test is `current ≠ []`. -/
def groupLoop (limit : Nat) :
    List SplitDoc → List (List SplitDoc) → List SplitDoc → Nat →
      List (List SplitDoc)
  | [], groups, current, _ =>
      if current = [] then groups else groups ++ [current]
  | c :: rest, groups, current, curlen =>
      if current ≠ [] ∧ curlen + c.page_content.length > limit then
        groupLoop limit rest (groups ++ [current]) [c] c.page_content.length
      else
        groupLoop limit rest groups (current ++ [c])
          (curlen + c.page_content.length)

/-- Greedy grouping of complete files (map-reduce.py:141-156) entered with
empty loop state. -/
def make_groups (limit : Nat) (completes : List SplitDoc) :
    List (List SplitDoc) :=
  groupLoop limit completes [] [] 0

/-- Prompt for one group of complete files (map-reduce.py:175-186). -/
def group_prompt (group : List SplitDoc) (question : Str) : Str :=
  ("Below are complete documents, each enclosed in <document> tags along with its source file name. "
      ++ "Please use only the texts provided to answer the following question. Do not access external data.\n\n").toList
    ++ (group.map (fun doc =>
          "Document Source: ".toList ++ doc.file_name
            ++ "\n<document>\n".toList ++ doc.page_content
            ++ "\n</document>\n\n".toList)).flatten
    ++ "Question between <question> ... </question> tags: \n<question>\n".toList
    ++ question
    ++ "\n</question>\n\nAnswer the question and include citations referencing the document sources (file names).".toList

/-- Order-preserving accumulation of the distinct file names of the
multi-chunk route, modelling `dict.setdefault` insertion order
(map-reduce.py:160-163). -/
def insertName (acc : List Str) (n : Str) : List Str :=
  if n ∈ acc then acc else acc ++ [n]

/-- The multi-chunk file names in first-appearance order (the key order of
the Python `multi_files` dict). -/
def fileNames (l : List SplitDoc) : List Str :=
  l.foldl (fun acc c => insertName acc c.file_name) []

/-- Stable insertion into a list sorted by `chunk_index` (helper for the
Python `chunks_list.sort(key=...)`, map-reduce.py:199). -/
def insertIdx (c : SplitDoc) : List SplitDoc → List SplitDoc
  | [] => [c]
  | d :: ds =>
    if c.chunk_index ≤ d.chunk_index then c :: d :: ds else d :: insertIdx c ds

/-- Stable sort by `chunk_index`, modelling Python's stable `list.sort`
with key `chunk_index` (map-reduce.py:199). -/
def sortByChunkIndex (l : List SplitDoc) : List SplitDoc :=
  l.foldr insertIdx []

/-- The `multi_files` dict (map-reduce.py:160-163) as an association list in
key-insertion order, each file's chunk list sorted by local index. -/
def multiFiles (multis : List SplitDoc) : List (Str × List SplitDoc) :=
  (fileNames multis).map
    (fun n => (n, sortByChunkIndex (multis.filter (fun c => c.file_name = n))))

/-- Prompt for one chunk of a multi-chunk file (map-reduce.py:209-220). -/
def multi_prompt (file_name : Str) (counter total_multi : Nat)
    (c : SplitDoc) (question : Str) : Str :=
  ("Below is the extracted text from a document chunk between the <chunk> ... </chunk> tags. "
      ++ "Please use only the text below as context to answer the following question. "
      ++ "Do not access external files or databases.\n\nDocument Source: ").toList
    ++ file_name
    ++ "\n(Chunk ".toList ++ commaFmt c.chunk_index
    ++ " of ".toList ++ commaFmt c.total_local_chunks
    ++ "; Global chunk ".toList ++ natStr c.global_chunk_index
    ++ " of ".toList ++ natStr c.global_total_chunks
    ++ "; Multi-chunk progress: ".toList ++ commaFmt counter
    ++ " of ".toList ++ commaFmt total_multi
    ++ ")\n\nDocument Content:\n<chunk>\n".toList ++ c.page_content
    ++ "\n</chunk>\n\nQuestion between <question> ... </question> tags: \n<question>\n".toList
    ++ question
    ++ "\n</question>\n\nAnswer the question and include citations referencing the document source (i.e., file name).".toList

/-- The multi-chunk traversal of `map_stage` (map-reduce.py:197-223): files
in dict order, each file's chunks in local-index order, with the running
`multi_chunk_counter` (1-based position in the traversal) and
`total_multi_chunks` (sum of the per-file chunk counts). -/
def map_multis (backend : Str → Option Str) (multis : List SplitDoc)
    (question : Str) : Except Str (List Str) :=
  let total_multi := ((multiFiles multis).map (fun p => p.2.length)).sum
  let units := ((multiFiles multis).map (fun p => p.2)).flatten
  mapE
    (fun ic =>
      safe_invoke backend
        (multi_prompt ic.2.file_name (ic.1 + 1) total_multi ic.2 question))
    units.enum

/-- Python function `map_stage` (map-reduce.py:133-226): partition, group the complete
files, query the backend once per group, then once per multi-chunk segment;
answers are collected group answers first, multi-chunk answers second. -/
def map_stage (backend : Str → Option Str) (chunks : List SplitDoc)
    (question : Str) (chunk_size_limit : Nat) : Except Str (List Str) :=
  let groups := make_groups chunk_size_limit (complete_chunks chunks)
  match mapE (fun g => safe_invoke backend (group_prompt g question)) groups with
  | Except.error e => Except.error e
  | Except.ok group_answers =>
    match map_multis backend (multi_chunks chunks) question with
    | Except.error e => Except.error e
    | Except.ok multi_answers => Except.ok (group_answers ++ multi_answers)

/-! ## Reduce stage -/

/-- The greedy packing loop of `reduce_stage` (map-reduce.py:249-258), with
the loop state (`chunks`, `current_chunk`) as explicit arguments.  Python's
`if current_chunk` truthiness test is `current ≠ []`. -/
def packChunks (budget : Nat) : List Str → List Str → Str → List Str
  | [], chunks, current =>
      if current = [] then chunks else chunks ++ [current]
  | output :: rest, chunks, current =>
      if current ≠ [] ∧ token_count (current ++ '\n' :: output) > budget then
        packChunks budget rest (chunks ++ [current]) output
      else
        packChunks budget rest chunks
          (if current = [] then output else current ++ '\n' :: output)

/-- The intermediate-chunk packing of `reduce_stage` entered with empty
loop state (map-reduce.py:249-258). -/
def reducePack (budget : Nat) (tagged : List Str) : List Str :=
  packChunks budget tagged [] []

/-- Prompt for one intermediate reduction chunk (map-reduce.py:269-277). -/
def intermediate_prompt (chunk question : Str) : Str :=
  ("Below are some partial answers produced by processing document chunks between the <partial_content> <output> ... </output> ... </partial_content> tags. "
      ++ "Please consolidate them into a single answer based solely on the text provided. "
      ++ "Do not access external data. Be sure to keep and list all source file names mentioned.\n\n"
      ++ "<partial_content>\n").toList
    ++ chunk
    ++ "\n</partial_content>\n\nIntermediate question between <question> ... </question> tags:\n<question>\n".toList
    ++ question
    ++ "\n</question>\n\nProvide a consolidated answer including citations referencing the document sources (file names).".toList

/-- Prompt for the final consolidation (map-reduce.py:285-293). -/
def final_prompt (combined question : Str) : Str :=
  ("Below are the answers produced by processing document chunks between the <combined_content> <output> ... </output> ... </combined_content> tags. "
      ++ "Based solely on the text provided, please consolidate them into a single final answer. "
      ++ "Do not access external data. Be sure to keep and list all source file names mentioned.\n\n"
      ++ "<combined_content>\n").toList
    ++ combined
    ++ "\n</combined_content>\n\nFinal question between <question> ... </question> tags:\n<question>\n".toList
    ++ question
    ++ "\n</question>\n\nProvide a consolidated final answer including citations referencing the document sources (file names).".toList

/-- Python function `reduce_stage` (map-reduce.py:228-296).  The result carries the number
of backend invocations made.  Python's recursion is unbounded; `fuel`
bounds the recursion depth of the model, and exhausting it yields the
distinguished error below — a run of the Python code diverges exactly when
the model errors this way for every fuel value.  (The Python `model`
parameter is passed through unused by the logic and is omitted.) -/
def reduce_stage (backend : Str → Option Str) (question : Str) (budget : Nat) :
    Nat → List Str → Except Str (Str × Nat)
  | fuel, map_outputs =>
    match map_outputs with
    | [a] => Except.ok (a, 0)
    | _ =>
      let tagged := map_outputs.map tagOutput
      let combined := join_nl tagged
      if token_count combined > budget then
        match mapE
            (fun c => safe_invoke backend (intermediate_prompt c question))
            (reducePack budget tagged) with
        | Except.error e => Except.error e
        | Except.ok results =>
          match fuel with
          | 0 => Except.error "reduce recursion fuel exhausted".toList
          | fuel' + 1 =>
            match reduce_stage backend question budget fuel' results with
            | Except.error e => Except.error e
            | Except.ok (final, n) =>
              Except.ok (final, (reducePack budget tagged).length + n)
      else
        match safe_invoke backend (final_prompt combined question) with
        | Except.error e => Except.error e
        | Except.ok ans => Except.ok (ans, 1)

/-! ## Main pipeline -/

/-- Outcome of a pipeline run (`main`, map-reduce.py:298-382):
`fatal` is an uncaught exception aborting the run, `noMapOutputs` the early
return of map-reduce.py:367-369, and `success` carries the printed final
answer together with the file write `(path, contents)` performed when an
output path was given. -/
inductive RunResult where
  | fatal (msg : Str)
  | noMapOutputs
  | success (final : Str) (written : Option (Str × Str))
deriving DecidableEq

/-- The output file written by a run, if any. -/
def writtenFile : RunResult → Option (Str × Str)
  | RunResult.success _ w => w
  | _ => none

/-- The tail of `main` (map-reduce.py:363-382) from the crawled documents
on: split, map, early-exit on empty map output, reduce, then print and
optionally write the final answer. -/
def main_run (backend : Str → Option Str) (splitter : Str → List Str)
    (documents : List Document) (question : Str)
    (chunk_size budget fuel : Nat) (output : Option Str) : RunResult :=
  let split_docs := split_documents splitter documents
  match map_stage backend split_docs question chunk_size with
  | Except.error e => RunResult.fatal e
  | Except.ok map_outputs =>
    if map_outputs = [] then RunResult.noMapOutputs
    else
      match reduce_stage backend question budget fuel map_outputs with
      | Except.error e => RunResult.fatal e
      | Except.ok (final, _) =>
        RunResult.success final (output.map (fun p => (p, final)))

/-! ## Theorems -/

/-- C8: When the reduce stage is given a list containing exactly one
answer, it returns that answer unchanged and performs zero backend
invocations (map-reduce.py:235-237). -/
theorem C8_single_output_identity
    (backend : Str → Option Str) (question : Str) (budget fuel : Nat)
    (a : Str) :
    reduce_stage backend question budget fuel [a] = Except.ok (a, 0) := by
  rw [reduce_stage]

/-! ### Greedy packing of the reduce stage -/

theorem packChunks_append (budget : Nat) (rest : List Str)
    (chunks : List Str) (current : Str) :
    packChunks budget rest chunks current
      = chunks ++ packChunks budget rest [] current := by
  induction rest generalizing chunks current with
  | nil =>
    rw [packChunks, packChunks]
    by_cases hc : current = [] <;> simp [hc]
  | cons o rest ih =>
    rw [packChunks, packChunks]
    by_cases hc : current ≠ [] ∧ token_count (current ++ '\n' :: o) > budget
    · rw [if_pos hc, if_pos hc, ih (chunks ++ [current]) o, ih ([] ++ [current]) o]
      simp
    · rw [if_neg hc, if_neg hc, ih chunks _, ih [] _]

theorem join_nl_cons_of_ne (x : Str) (l : List Str) (h : l ≠ []) :
    join_nl (x :: l) = x ++ '\n' :: join_nl l := by
  cases l with
  | nil => exact absurd rfl h
  | cons y ys => rfl

theorem join_nl_merge (a b : Str) (l : List Str) :
    join_nl ((a ++ '\n' :: b) :: l) = join_nl (a :: b :: l) := by
  cases l with
  | nil => rfl
  | cons z zs =>
    rw [join_nl_cons_of_ne _ (z :: zs) (by simp),
      join_nl_cons_of_ne a (b :: z :: zs) (by simp),
      join_nl_cons_of_ne b (z :: zs) (by simp)]
    simp

theorem packChunks_ne_nil (budget : Nat) (rest : List Str) (current : Str)
    (hcur : current ≠ []) :
    packChunks budget rest [] current ≠ [] := by
  induction rest generalizing current with
  | nil =>
    rw [packChunks]
    simp [hcur]
  | cons o rest ih =>
    rw [packChunks]
    by_cases hc : current ≠ [] ∧ token_count (current ++ '\n' :: o) > budget
    · rw [if_pos hc, packChunks_append]
      simp
    · rw [if_neg hc, if_neg hcur]
      exact ih _ (by simp [hcur])

theorem packChunks_join (budget : Nat) (rest : List Str) (current : Str)
    (hrest : ∀ o ∈ rest, o ≠ []) :
    join_nl (packChunks budget rest [] current)
      = if current = [] then join_nl rest else join_nl (current :: rest) := by
  induction rest generalizing current with
  | nil =>
    rw [packChunks]
    by_cases hc : current = [] <;> simp [hc, join_nl]
  | cons o rest ih =>
    have ho : o ≠ [] := hrest o (by simp)
    have hrest' : ∀ x ∈ rest, x ≠ [] := fun x hx => hrest x (by simp [hx])
    rw [packChunks]
    by_cases hc : current ≠ [] ∧ token_count (current ++ '\n' :: o) > budget
    · rw [if_pos hc, packChunks_append]
      simp only [List.nil_append, List.singleton_append]
      rw [join_nl_cons_of_ne current _ (packChunks_ne_nil budget rest o ho),
        ih o hrest', if_neg ho, if_neg hc.1,
        join_nl_cons_of_ne current (o :: rest) (by simp)]
    · rw [if_neg hc]
      by_cases hcur : current = []
      · rw [if_pos hcur, ih o hrest', if_neg ho, if_pos hcur]
      · rw [if_neg hcur, ih _ hrest',
          if_neg (show current ++ '\n' :: o ≠ [] by simp [hcur]),
          join_nl_merge, if_neg hcur]

theorem packChunks_sound (budget : Nat) (S : Str → Prop) (rest : List Str)
    (chunks : List Str) (current : Str)
    (hrest : ∀ o ∈ rest, S o ∧ o ≠ [])
    (hchunks : ∀ b ∈ chunks, b ≠ [] ∧ (S b ∨ token_count b ≤ budget))
    (hcur : current = [] ∨ (S current ∨ token_count current ≤ budget)) :
    ∀ b ∈ packChunks budget rest chunks current,
      b ≠ [] ∧ (S b ∨ token_count b ≤ budget) := by
  induction rest generalizing chunks current with
  | nil =>
    rw [packChunks]
    by_cases hc : current = []
    · rw [if_pos hc]
      exact hchunks
    · rw [if_neg hc]
      intro b hb
      rcases List.mem_append.1 hb with h | h
      · exact hchunks b h
      · simp only [List.mem_singleton] at h
        subst h
        exact ⟨hc, hcur.resolve_left hc⟩
  | cons o rest ih =>
    have hrest' : ∀ x ∈ rest, S x ∧ x ≠ [] :=
      fun x hx => hrest x (List.mem_cons_of_mem o hx)
    have hoS : S o ∧ o ≠ [] := hrest o (List.mem_cons_self o rest)
    rw [packChunks]
    by_cases hc : current ≠ [] ∧ token_count (current ++ '\n' :: o) > budget
    · rw [if_pos hc]
      apply ih _ _ hrest' _ (Or.inr (Or.inl hoS.1))
      intro b hb
      rcases List.mem_append.1 hb with h | h
      · exact hchunks b h
      · simp only [List.mem_singleton] at h
        subst h
        exact ⟨hc.1, hcur.resolve_left hc.1⟩
    · rw [if_neg hc]
      by_cases h0 : current = []
      · rw [if_pos h0]
        exact ih _ _ hrest' hchunks (Or.inr (Or.inl hoS.1))
      · rw [if_neg h0]
        apply ih _ _ hrest' hchunks
        push_neg at hc
        exact Or.inr (Or.inr (hc h0))

theorem packChunks_length (budget : Nat) (rest : List Str)
    (chunks : List Str) (current : Str) :
    (packChunks budget rest chunks current).length
      ≤ chunks.length + (if current = [] then 0 else 1) + rest.length := by
  induction rest generalizing chunks current with
  | nil =>
    rw [packChunks]
    by_cases hc : current = [] <;> simp [hc]
  | cons o rest ih =>
    rw [packChunks]
    by_cases hc : current ≠ [] ∧ token_count (current ++ '\n' :: o) > budget
    · rw [if_pos hc, if_neg hc.1]
      have h1 := ih (chunks ++ [current]) o
      simp only [List.length_append, List.length_singleton, List.length_cons,
        List.length_nil] at h1 ⊢
      split_ifs at h1 <;> omega
    · rw [if_neg hc]
      by_cases h0 : current = []
      · rw [if_pos h0, if_pos h0]
        have h1 := ih chunks o
        simp only [List.length_cons] at h1 ⊢
        split_ifs at h1 <;> omega
      · rw [if_neg h0, if_neg h0]
        have h1 := ih chunks (current ++ '\n' :: o)
        rw [if_neg (show current ++ '\n' :: o ≠ [] by simp)] at h1
        simp only [List.length_cons] at h1 ⊢
        omega

theorem packChunks_singleton_le (budget : Nat) (rest : List Str)
    (current : Str) (b : Str)
    (hcur : current ≠ []) (hrest : rest ≠ [])
    (hrestne : ∀ o ∈ rest, o ≠ [])
    (hpack : packChunks budget rest [] current = [b]) :
    token_count b ≤ budget := by
  induction rest generalizing current with
  | nil => exact absurd rfl hrest
  | cons o rest ih =>
    have ho : o ≠ [] := hrestne o (List.mem_cons_self o rest)
    rw [packChunks] at hpack
    by_cases hc : current ≠ [] ∧ token_count (current ++ '\n' :: o) > budget
    · rw [if_pos hc, packChunks_append] at hpack
      have hne := packChunks_ne_nil budget rest o ho
      cases hX : packChunks budget rest [] o with
      | nil => exact absurd hX hne
      | cons z zs =>
        rw [hX] at hpack
        simp at hpack
    · rw [if_neg hc, if_neg hcur] at hpack
      push_neg at hc
      have hle : token_count (current ++ '\n' :: o) ≤ budget := hc hcur
      by_cases hr : rest = []
      · subst hr
        rw [packChunks] at hpack
        rw [if_neg (show current ++ '\n' :: o ≠ [] by simp)] at hpack
        have hb : current ++ '\n' :: o = b := by simpa using hpack
        rw [← hb]
        exact hle
      · exact ih _ (by simp) hr
          (fun x hx => hrestne x (List.mem_cons_of_mem o hx)) hpack

theorem tagOutput_ne_nil (o : Str) : tagOutput o ≠ [] := by
  show ('<' :: "output>\n".toList) ++ o ++ "\n</output>".toList ≠ []
  simp

theorem reducePack_cons (budget : Nat) (t : Str) (rest : List Str) :
    reducePack budget (t :: rest) = packChunks budget rest [] t := by
  rw [reducePack, packChunks]
  simp

/-- C4: the reduce stage's greedy packing produces only non-empty batches;
every batch is a single tagged answer or fits the budget (so two answers
are never merged past the budget, and an oversized answer stands alone,
never dropped and never split — the batches rejoin to the original
concatenation); and when two or more answers jointly exceed the budget, at
least two batches are produced (map-reduce.py:249-258). -/
theorem C4_greedy_pack_properties (answers : List Str) (budget : Nat) :
    (∀ b ∈ reducePack budget (answers.map tagOutput), b ≠ []) ∧
    (∀ b ∈ reducePack budget (answers.map tagOutput),
      b ∈ answers.map tagOutput ∨ token_count b ≤ budget) ∧
    join_nl (reducePack budget (answers.map tagOutput))
      = join_nl (answers.map tagOutput) ∧
    (2 ≤ answers.length →
      budget < token_count (join_nl (answers.map tagOutput)) →
      2 ≤ (reducePack budget (answers.map tagOutput)).length) := by
  have htagne : ∀ o ∈ answers.map tagOutput, o ≠ [] := by
    intro o ho
    rcases List.mem_map.1 ho with ⟨a, _, rfl⟩
    exact tagOutput_ne_nil a
  have hsound := packChunks_sound budget (fun b => b ∈ answers.map tagOutput)
    (answers.map tagOutput) [] []
    (fun o ho => ⟨ho, htagne o ho⟩) (by simp) (Or.inl rfl)
  have hjoin : join_nl (reducePack budget (answers.map tagOutput))
      = join_nl (answers.map tagOutput) := by
    have h := packChunks_join budget (answers.map tagOutput) [] htagne
    rw [if_pos rfl] at h
    exact h
  refine ⟨fun b hb => (hsound b hb).1, fun b hb => (hsound b hb).2, hjoin, ?_⟩
  intro h2 hbud
  cases hm : answers.map tagOutput with
  | nil =>
    rw [List.map_eq_nil_iff] at hm
    subst hm
    simp at h2
  | cons t rest =>
    have ht : t ≠ [] := htagne t (by rw [hm]; exact List.mem_cons_self t rest)
    have hrestne : ∀ o ∈ rest, o ≠ [] :=
      fun o ho => htagne o (by rw [hm]; exact List.mem_cons_of_mem t ho)
    have hrne : rest ≠ [] := by
      intro h
      subst h
      have := congrArg List.length hm
      simp at this
      omega
    rw [reducePack_cons]
    by_contra hlt
    push_neg at hlt
    have hne : packChunks budget rest [] t ≠ [] :=
      packChunks_ne_nil budget rest t ht
    have h1 : (packChunks budget rest [] t).length = 1 := by
      have := List.length_pos.2 hne
      omega
    rcases List.length_eq_one.1 h1 with ⟨b, hb⟩
    have hble := packChunks_singleton_le budget rest t b ht hrne hrestne hb
    have hjb : b = join_nl (t :: rest) := by
      have := hjoin
      rw [hm, reducePack_cons, hb] at this
      simpa [join_nl] using this
    rw [hm] at hbud
    rw [hjb] at hble
    omega

/-- C1 (amended): whenever the reduce stage recurses, the number of
intermediate batches produced at a level is at least one and at most the
number of answers entering that level — the count never grows, but (contra
the original claim) it need not strictly shrink (map-reduce.py:247-282). -/
theorem C1_reduce_level_bound (answers : List Str) (budget : Nat) :
    (answers ≠ [] → 1 ≤ (reducePack budget (answers.map tagOutput)).length) ∧
    (reducePack budget (answers.map tagOutput)).length ≤ answers.length := by
  constructor
  · intro h
    cases hm : answers.map tagOutput with
    | nil => exact absurd (List.map_eq_nil_iff.1 hm) h
    | cons t rest =>
      rw [reducePack_cons]
      exact List.length_pos.2 (packChunks_ne_nil budget rest t
        (by
          rcases List.mem_map.1 (show t ∈ answers.map tagOutput by
            rw [hm]; exact List.mem_cons_self t rest) with ⟨a, _, rfl⟩
          exact tagOutput_ne_nil a))
  · have h := packChunks_length budget (answers.map tagOutput) [] []
    simpa [reducePack] using h

/-- C1 (counterexample): with two answers of four words each and budget 5,
the reduce stage recurses (the tagged joint token count 12 exceeds 5), yet
the level produces exactly as many batches (two) as the answers entering
it — not strictly fewer; with a backend whose consolidated answers stay
four words long, the recursion keeps spinning on two answers and exhausts
any fuel. -/
theorem C1_strict_decrease_counterexample :
    5 < token_count (join_nl ((["a b c d".toList, "e f g h".toList]).map tagOutput))
    ∧ (reducePack 5 ((["a b c d".toList, "e f g h".toList]).map tagOutput)).length
        = (["a b c d".toList, "e f g h".toList] : List Str).length
    ∧ reduce_stage (fun _ => some "e f g h".toList) "q".toList 5 5
        ["a b c d".toList, "e f g h".toList]
        = Except.error "reduce recursion fuel exhausted".toList :=
  ⟨by decide, by decide, by rfl⟩


/-! ### Splitter metadata and map-stage routing -/

/-- C5: after splitting completes, every segment's `global_total_chunks`
equals the number of segments across the entire corpus
(map-reduce.py:123-125). -/
theorem C5_global_total_chunks (splitter : Str → List Str)
    (documents : List Document) (d : SplitDoc)
    (hd : d ∈ split_documents splitter documents) :
    d.global_total_chunks = (split_documents splitter documents).length := by
  simp only [split_documents] at hd ⊢
  rcases List.mem_map.1 hd with ⟨x, hx, rfl⟩
  simp

theorem mem_chunkDocs (doc : Document) (n : Nat) :
    ∀ (chunks : List Str) (g i : Nat) (c : SplitDoc),
      c ∈ chunkDocs doc n chunks g i → c.total_local_chunks = n ∧ chunks ≠ [] := by
  intro chunks
  induction chunks with
  | nil =>
    intro g i c hc
    simp [chunkDocs] at hc
  | cons x xs ih =>
    intro g i c hc
    rw [chunkDocs] at hc
    rcases List.mem_cons.1 hc with h | h
    · subst h
      exact ⟨rfl, by simp⟩
    · exact ⟨(ih _ _ _ h).1, by simp⟩

theorem mem_splitAll_tlc (splitter : Str → List Str) :
    ∀ (docs : List Document) (g : Nat) (c : SplitDoc),
      c ∈ splitAll splitter docs g → 1 ≤ c.total_local_chunks := by
  intro docs
  induction docs with
  | nil =>
    intro g c hc
    simp [splitAll] at hc
  | cons d ds ih =>
    intro g c hc
    simp only [splitAll] at hc
    rcases List.mem_append.1 hc with h | h
    · obtain ⟨htlc, hne⟩ := mem_chunkDocs d _ _ _ _ c h
      rw [htlc]
      have := List.length_pos.2 hne
      omega
    · exact ih _ _ h

theorem mem_split_documents_tlc (splitter : Str → List Str)
    (documents : List Document) (c : SplitDoc)
    (hc : c ∈ split_documents splitter documents) :
    1 ≤ c.total_local_chunks := by
  simp only [split_documents] at hc
  rcases List.mem_map.1 hc with ⟨x, hx, rfl⟩
  simpa using mem_splitAll_tlc splitter documents 0 x hx

/-- C6: every segment of a one-segment document is routed to the
document-batching path and not the per-segment path, and every segment of
a multi-segment document the other way around; no segment is routed to
both paths or neither (map-reduce.py:137-138). -/
theorem C6_routing_partition (splitter : Str → List Str)
    (documents : List Document) (c : SplitDoc)
    (hc : c ∈ split_documents splitter documents) :
    (c.total_local_chunks = 1
      ∧ c ∈ complete_chunks (split_documents splitter documents)
      ∧ c ∉ multi_chunks (split_documents splitter documents))
    ∨ (1 < c.total_local_chunks
      ∧ c ∈ multi_chunks (split_documents splitter documents)
      ∧ c ∉ complete_chunks (split_documents splitter documents)) := by
  have h1 := mem_split_documents_tlc splitter documents c hc
  by_cases he : c.total_local_chunks = 1
  · left
    refine ⟨he, ?_, ?_⟩
    · simp [complete_chunks, List.mem_filter, hc, he]
    · simp [multi_chunks, List.mem_filter, he]
  · right
    have h2 : 1 < c.total_local_chunks := by omega
    refine ⟨h2, ?_, ?_⟩
    · simp [multi_chunks, List.mem_filter, hc, h2]
    · simp [complete_chunks, List.mem_filter, he]

/-! ### Greedy grouping of complete files in the map stage -/

theorem groupLoop_append (limit : Nat) (rest : List SplitDoc)
    (groups : List (List SplitDoc)) (current : List SplitDoc) (curlen : Nat) :
    groupLoop limit rest groups current curlen
      = groups ++ groupLoop limit rest [] current curlen := by
  induction rest generalizing groups current curlen with
  | nil =>
    rw [groupLoop, groupLoop]
    by_cases hc : current = [] <;> simp [hc]
  | cons c rest ih =>
    rw [groupLoop, groupLoop]
    by_cases hc : current ≠ [] ∧ curlen + c.page_content.length > limit
    · rw [if_pos hc, if_pos hc, ih (groups ++ [current]) _ _,
        ih ([] ++ [current]) _ _]
      simp
    · rw [if_neg hc, if_neg hc, ih groups _ _, ih [] _ _]

theorem groupLoop_flatten (limit : Nat) (rest : List SplitDoc)
    (current : List SplitDoc) (curlen : Nat) :
    (groupLoop limit rest [] current curlen).flatten = current ++ rest := by
  induction rest generalizing current curlen with
  | nil =>
    rw [groupLoop]
    by_cases hc : current = [] <;> simp [hc]
  | cons c rest ih =>
    rw [groupLoop]
    by_cases hc : current ≠ [] ∧ curlen + c.page_content.length > limit
    · rw [if_pos hc, groupLoop_append]
      simp [ih]
    · rw [if_neg hc, ih]
      simp

theorem groupLoop_sound (limit : Nat) (rest : List SplitDoc)
    (groups : List (List SplitDoc)) (current : List SplitDoc) (curlen : Nat)
    (hgroups : ∀ g ∈ groups, g ≠ [] ∧ (2 ≤ g.length → sumLen g ≤ limit))
    (hcurlen : curlen = sumLen current)
    (hcur : 2 ≤ current.length → curlen ≤ limit) :
    ∀ g ∈ groupLoop limit rest groups current curlen,
      g ≠ [] ∧ (2 ≤ g.length → sumLen g ≤ limit) := by
  induction rest generalizing groups current curlen with
  | nil =>
    rw [groupLoop]
    by_cases hc : current = []
    · rw [if_pos hc]
      exact hgroups
    · rw [if_neg hc]
      intro g hg
      rcases List.mem_append.1 hg with h | h
      · exact hgroups g h
      · simp only [List.mem_singleton] at h
        subst h
        exact ⟨hc, fun h2 => hcurlen ▸ hcur h2⟩
  | cons c rest ih =>
    rw [groupLoop]
    by_cases hc : current ≠ [] ∧ curlen + c.page_content.length > limit
    · rw [if_pos hc]
      apply ih _ _ _ _ (by simp [sumLen]) (by simp)
      intro g hg
      rcases List.mem_append.1 hg with h | h
      · exact hgroups g h
      · simp only [List.mem_singleton] at h
        subst h
        exact ⟨hc.1, fun h2 => hcurlen ▸ hcur h2⟩
    · rw [if_neg hc]
      apply ih _ _ _ hgroups
      · rw [hcurlen]
        simp [sumLen]
      · intro h2
        by_cases h0 : current = []
        · subst h0
          simp at h2
        · push_neg at hc
          exact Nat.le_of_not_lt (fun hlt => absurd (hc h0) (by omega))

/-- C7: the map stage packs single-segment documents greedily in crawl
order: groups are never empty, they flatten back to the input order with
nothing dropped, any group of two or more documents keeps its combined
character length within the ceiling, and a document longer than the
ceiling stands alone in its own group (map-reduce.py:140-157). -/
theorem C7_complete_grouping (chunks : List SplitDoc) (limit : Nat) :
    (∀ g ∈ make_groups limit (complete_chunks chunks), g ≠ []) ∧
    (make_groups limit (complete_chunks chunks)).flatten
      = complete_chunks chunks ∧
    (∀ g ∈ make_groups limit (complete_chunks chunks),
      2 ≤ g.length → sumLen g ≤ limit) ∧
    (∀ g ∈ make_groups limit (complete_chunks chunks), ∀ c ∈ g,
      limit < c.page_content.length → g = [c]) := by
  simp only [make_groups]
  have hsound := groupLoop_sound limit (complete_chunks chunks) [] [] 0
    (by simp) (by simp [sumLen]) (by simp)
  refine ⟨fun g hg => (hsound g hg).1, ?_,
    fun g hg => (hsound g hg).2, ?_⟩
  · simpa using groupLoop_flatten limit (complete_chunks chunks) [] 0
  · intro g hg c hcg hlen
    obtain ⟨hne, hbound⟩ := hsound g hg
    cases g with
    | nil => exact absurd rfl hne
    | cons a gs =>
      cases gs with
      | nil =>
        simp only [List.mem_singleton] at hcg
        subst hcg
        rfl
      | cons b bs =>
        exfalso
        have h2 : 2 ≤ (a :: b :: bs).length := by
          simp only [List.length_cons]
          omega
        have hs := hbound h2
        have hcle : c.page_content.length ≤ sumLen (a :: b :: bs) := by
          simp only [sumLen]
          exact List.single_le_sum (fun x _ => Nat.zero_le x) _
            (List.mem_map_of_mem _ hcg)
        omega


/-! ### Crawler error handling -/

theorem crawl_append (extract : Str → Except Str Str) (matcher : Str → Bool)
    (xs ys : List FileEntry) :
    crawl_directory_to_documents extract matcher (xs ++ ys)
      = crawl_directory_to_documents extract matcher xs
        ++ crawl_directory_to_documents extract matcher ys := by
  induction xs with
  | nil => simp [crawl_directory_to_documents]
  | cons f fs ih =>
    simp only [List.cons_append]
    rw [crawl_directory_to_documents, crawl_directory_to_documents]
    by_cases hm : matcher f.file_path
    · rw [if_pos hm, if_pos hm]
      cases he : extract f.file_path with
      | error e => exact ih
      | ok text =>
        by_cases ht : text = [] <;> simp [ht, ih]
    · rw [if_neg hm, if_neg hm]
      exact ih

/-- C9: a file whose extraction raises, or yields empty text, is skipped —
the crawl's result processes every other file exactly as if the failing
file were absent, so the crawl continues and only that file is omitted
(map-reduce.py:80-101). -/
theorem C9_crawl_skip_continue (extract : Str → Except Str Str)
    (matcher : Str → Bool) (pre post : List FileEntry) (f : FileEntry)
    (hf : (∃ e, extract f.file_path = Except.error e)
        ∨ extract f.file_path = Except.ok []) :
    crawl_directory_to_documents extract matcher (pre ++ f :: post)
      = crawl_directory_to_documents extract matcher pre
        ++ crawl_directory_to_documents extract matcher post := by
  rw [crawl_append]
  congr 1
  rw [crawl_directory_to_documents]
  by_cases hm : matcher f.file_path
  · rw [if_pos hm]
    rcases hf with ⟨e, he⟩ | he
    · rw [he]
    · rw [he]
      simp
  · rw [if_neg hm]

/-! ### Fatal backend errors and the empty-map early exit -/

theorem safe_invoke_error (backend : Str → Option Str)
    (hb : ∀ p c, backend p = some c → strip c = []) (prompt : Str) :
    safe_invoke backend prompt
      = Except.error
          ("ChatOllama returned an empty response for prompt: ".toList
            ++ prompt) := by
  rw [safe_invoke]
  cases hbp : backend prompt with
  | none => rfl
  | some c => simp [hb prompt c hbp]

theorem mapE_ok_of_allError (f : α → Except Str β) (l : List α)
    (hf : ∀ x ∈ l, ∃ e, f x = Except.error e) (outs : List β)
    (h : mapE f l = Except.ok outs) : l = [] ∧ outs = [] := by
  cases l with
  | nil =>
    rw [mapE] at h
    cases h
    exact ⟨rfl, rfl⟩
  | cons a l =>
    obtain ⟨e, he⟩ := hf a (List.mem_cons_self a l)
    rw [mapE, he] at h
    cases h

theorem map_stage_ok_empty (backend : Str → Option Str)
    (chunks : List SplitDoc) (question : Str) (limit : Nat)
    (outs : List Str)
    (hb : ∀ p c, backend p = some c → strip c = [])
    (h : map_stage backend chunks question limit = Except.ok outs) :
    outs = [] := by
  rw [map_stage] at h
  cases h1 : mapE (fun g => safe_invoke backend (group_prompt g question))
      (make_groups limit (complete_chunks chunks)) with
  | error e =>
    rw [h1] at h
    cases h
  | ok ga =>
    rw [h1] at h
    obtain ⟨-, hga⟩ := mapE_ok_of_allError _ _
      (fun x _ => ⟨_, safe_invoke_error backend hb _⟩) ga h1
    cases h2 : map_multis backend (multi_chunks chunks) question with
    | error e =>
      rw [h2] at h
      cases h
    | ok ma =>
      rw [h2] at h
      simp only [map_multis] at h2
      obtain ⟨-, hma⟩ := mapE_ok_of_allError _ _
        (fun x _ => ⟨_, safe_invoke_error backend hb _⟩) ma h2
      cases h
      rw [hga, hma]
      rfl

theorem mapE_error_of_exists (f : α → Except Str β) (l : List α)
    (h : ∃ x ∈ l, ∃ e, f x = Except.error e) :
    ∃ e, mapE f l = Except.error e := by
  induction l with
  | nil => simp at h
  | cons a l ih =>
    rw [mapE]
    cases hfa : f a with
    | error e => exact ⟨e, rfl⟩
    | ok b =>
      obtain ⟨x, hx, e, hfx⟩ := h
      rcases List.mem_cons.1 hx with rfl | hx'
      · rw [hfa] at hfx
        cases hfx
      · obtain ⟨e', he'⟩ := ih ⟨x, hx', e, hfx⟩
        rw [he']
        exact ⟨e', rfl⟩

/-- C3: a backend invocation raises exactly when the response content is
missing, empty or whitespace-only (map-reduce.py:53-56); one such response
amid otherwise successful calls aborts the stage it occurs in — an
intermediate reduction batch or the final consolidation of the reduce
stage (map-reduce.py:279, 295), a grouped-document prompt or a per-segment
prompt of the map stage (map-reduce.py:189, 222) — an aborted map or
reduce stage aborts the whole run with no retry and no partial result, and
the aborted run never reaches the success state and writes no output file
even when an output path was given (map-reduce.py:367-382). -/
theorem C3_empty_response_aborts (backend : Str → Option Str)
    (splitter : Str → List Str) (documents : List Document) (question : Str)
    (chunk_size budget fuel : Nat) (output : Option Str) :
    (∀ prompt,
      (backend prompt = none ∨ ∃ c, backend prompt = some c ∧ strip c = [])
        ↔ safe_invoke backend prompt
            = Except.error
                ("ChatOllama returned an empty response for prompt: ".toList
                  ++ prompt)) ∧
    (∀ outs : List Str, outs.length ≠ 1 →
      budget < token_count (join_nl (outs.map tagOutput)) →
      (∃ c ∈ reducePack budget (outs.map tagOutput), ∃ e,
        safe_invoke backend (intermediate_prompt c question)
          = Except.error e) →
      ∃ e, reduce_stage backend question budget fuel outs = Except.error e) ∧
    (∀ outs : List Str, outs.length ≠ 1 →
      token_count (join_nl (outs.map tagOutput)) ≤ budget →
      (∃ e, safe_invoke backend
          (final_prompt (join_nl (outs.map tagOutput)) question)
        = Except.error e) →
      ∃ e, reduce_stage backend question budget fuel outs = Except.error e) ∧
    (((∃ g ∈ make_groups chunk_size
          (complete_chunks (split_documents splitter documents)), ∃ e,
        safe_invoke backend (group_prompt g question) = Except.error e) ∨
      (∃ e, map_multis backend
          (multi_chunks (split_documents splitter documents)) question
        = Except.error e)) →
      ∃ e, map_stage backend (split_documents splitter documents) question
          chunk_size = Except.error e) ∧
    ((∃ ic ∈ (((multiFiles (multi_chunks (split_documents splitter
            documents))).map (fun p => p.2)).flatten).enum, ∃ e,
        safe_invoke backend
            (multi_prompt ic.2.file_name (ic.1 + 1)
              (((multiFiles (multi_chunks (split_documents splitter
                documents))).map (fun p => p.2.length)).sum) ic.2 question)
          = Except.error e) →
      ∃ e, map_multis backend
          (multi_chunks (split_documents splitter documents)) question
        = Except.error e) ∧
    (∀ e, map_stage backend (split_documents splitter documents) question
        chunk_size = Except.error e →
      main_run backend splitter documents question chunk_size budget fuel
          output = RunResult.fatal e) ∧
    (∀ outs e,
      map_stage backend (split_documents splitter documents) question
          chunk_size = Except.ok outs →
      outs ≠ [] →
      reduce_stage backend question budget fuel outs = Except.error e →
      main_run backend splitter documents question chunk_size budget fuel
          output = RunResult.fatal e) ∧
    (∀ e, main_run backend splitter documents question chunk_size budget fuel
        output = RunResult.fatal e →
      (∀ final w, main_run backend splitter documents question chunk_size
          budget fuel output ≠ RunResult.success final w) ∧
      writtenFile (main_run backend splitter documents question chunk_size
          budget fuel output) = none) := by
  refine ⟨?_, ?_, ?_, ?_, ?_, ?_, ?_, ?_⟩
  · intro prompt
    constructor
    · rintro (hn | ⟨c, hc, hs⟩)
      · rw [safe_invoke, hn]
      · rw [safe_invoke, hc]
        dsimp only
        rw [if_pos hs]
    · intro he
      rw [safe_invoke] at he
      cases hb : backend prompt with
      | none => exact Or.inl rfl
      | some c =>
        rw [hb] at he
        by_cases hs : strip c = []
        · exact Or.inr ⟨c, rfl, hs⟩
        · dsimp only at he
          rw [if_neg hs] at he
          cases he
  · intro outs hlen hbud hex
    obtain ⟨e, he⟩ := mapE_error_of_exists
      (fun c => safe_invoke backend (intermediate_prompt c question)) _ hex
    refine ⟨e, ?_⟩
    cases outs with
    | nil =>
      rw [reduce_stage]
      · rw [if_pos hbud, he]
      · simp
    | cons a t =>
      cases t with
      | nil => simp at hlen
      | cons b t' =>
        rw [reduce_stage]
        · rw [if_pos hbud, he]
        · simp
  · intro outs hlen hbud hex
    obtain ⟨e, he⟩ := hex
    refine ⟨e, ?_⟩
    cases outs with
    | nil =>
      rw [reduce_stage]
      · rw [if_neg (Nat.not_lt.2 hbud), he]
      · simp
    | cons a t =>
      cases t with
      | nil => simp at hlen
      | cons b t' =>
        rw [reduce_stage]
        · rw [if_neg (Nat.not_lt.2 hbud), he]
        · simp
  · intro hor
    rcases hor with ⟨g, hg, e, he⟩ | ⟨e, he⟩
    · obtain ⟨e', he'⟩ := mapE_error_of_exists
        (fun g => safe_invoke backend (group_prompt g question)) _
        ⟨g, hg, e, he⟩
      refine ⟨e', ?_⟩
      simp only [map_stage]
      rw [he']
    · simp only [map_stage]
      cases h1 : mapE
          (fun g => safe_invoke backend (group_prompt g question))
          (make_groups chunk_size
            (complete_chunks (split_documents splitter documents))) with
      | error e' => exact ⟨e', rfl⟩
      | ok ga =>
        refine ⟨e, ?_⟩
        dsimp only
        rw [he]
  · intro hex
    simp only [map_multis]
    exact mapE_error_of_exists _ _ hex
  · intro e hm
    simp only [main_run]
    rw [hm]
  · intro outs e hm hne hr
    simp only [main_run]
    rw [hm]
    dsimp only
    rw [if_neg hne, hr]
  · intro e hm
    refine ⟨?_, ?_⟩
    · intro final w hc
      rw [hm] at hc
      cases hc
    · rw [hm]
      rfl

/-- C10: when the map stage produces an empty answer list, the pipeline
exits with the logged error before the reduce stage — the outcome is the
early return for every reduce budget, fuel and output path, so the reduce
stage is never invoked and no output file is written
(map-reduce.py:367-369 and 376-382). -/
theorem C10_no_map_outputs (backend : Str → Option Str)
    (splitter : Str → List Str) (documents : List Document) (question : Str)
    (chunk_size budget fuel : Nat) (output : Option Str)
    (h : map_stage backend (split_documents splitter documents) question
        chunk_size = Except.ok []) :
    main_run backend splitter documents question chunk_size budget fuel output
      = RunResult.noMapOutputs ∧
    (∀ budget' fuel' output',
      main_run backend splitter documents question chunk_size budget' fuel'
        output' = RunResult.noMapOutputs) ∧
    writtenFile
        (main_run backend splitter documents question chunk_size budget fuel
          output)
      = none := by
  have hall : ∀ (b f : Nat) (o : Option Str),
      main_run backend splitter documents question chunk_size b f o
        = RunResult.noMapOutputs := by
    intro b f o
    simp [main_run, h]
  exact ⟨hall budget fuel output, hall, by rw [hall budget fuel output]; rfl⟩


/-! ### Split/reassemble round trip (spec-modelled splitter) -/

theorem splitText_flatten_drop (size overlap : Nat) (h : overlap < size)
    (u : Str) :
    ((splitText size overlap u).map (fun seg => seg.drop overlap)).flatten
      = u.drop overlap := by
  induction u using splitText.induct size overlap with
  | case1 t ht =>
    rw [splitText, if_pos ht]
    simp
  | case2 t ht ih =>
    rw [splitText, if_neg ht]
    simp only [List.map_cons, List.flatten_cons]
    rw [ih, List.drop_drop]
    have h1 : size - overlap + overlap = size := by omega
    rw [h1, List.drop_take]
    have h2 : t.drop size = (t.drop overlap).drop (size - overlap) := by
      rw [List.drop_drop]
      congr 1
      omega
    rw [h2, List.take_append_drop]

theorem reassemble_splitText (size overlap : Nat) (h : overlap < size)
    (t : Str) :
    reassemble overlap (splitText size overlap t) = t := by
  rw [splitText]
  by_cases hc : t.length ≤ size ∨ size ≤ overlap
  · rw [if_pos hc]
    simp [reassemble]
  · rw [if_neg hc, reassemble, splitText_flatten_drop size overlap h,
      List.drop_drop]
    have h1 : size - overlap + overlap = size := by omega
    rw [h1, List.take_append_drop]

/-- C2: splitting a document's text into segments with the configured chunk
size and overlap and then reassembling them — concatenating the segments
after removing each segment's leading overlap with its predecessor —
reconstructs the original text exactly (splitter modelled from the spec:
the splitting algorithm is the external `RecursiveCharacterTextSplitter`,
map-reduce.py:104-113 only invokes it). -/
theorem C2_split_roundtrip (size overlap : Nat) (h : overlap < size)
    (doc : Document) :
    reassemble overlap (splitText size overlap doc.page_content)
      = doc.page_content :=
  reassemble_splitText size overlap h doc.page_content


/-! ### Concrete witnesses -/

theorem C1_reduce_level_bound_witness :
    1 ≤ (reducePack 5 ((["a b c d".toList, "e f g h".toList]).map
        tagOutput)).length :=
  (C1_reduce_level_bound ["a b c d".toList, "e f g h".toList] 5).1 (by decide)

theorem C2_split_roundtrip_witness :
    reassemble 1 (splitText 3 1
        (Document.mk "abcdef".toList "f".toList "p".toList).page_content)
      = (Document.mk "abcdef".toList "f".toList "p".toList).page_content :=
  C2_split_roundtrip 3 1 (by decide)
    (Document.mk "abcdef".toList "f".toList "p".toList)

theorem C3_empty_response_aborts_witness :
    writtenFile
        (main_run
          (fun p => if p.take 21 = "Below are the answers".toList
            then some " ".toList else some "good answer".toList)
          (fun s => [s])
          [Document.mk "ab".toList "f1".toList "p1".toList,
            Document.mk "cd".toList "f2".toList "p2".toList]
          "q".toList 3 100 5 (some "out".toList))
      = none := by
  have h := C3_empty_response_aborts
    (fun p => if p.take 21 = "Below are the answers".toList
      then some " ".toList else some "good answer".toList)
    (fun s => [s])
    [Document.mk "ab".toList "f1".toList "p1".toList,
      Document.mk "cd".toList "f2".toList "p2".toList]
    "q".toList 3 100 5 (some "out".toList)
  obtain ⟨e, he⟩ := h.2.2.1 ["good answer".toList, "good answer".toList]
    (by decide) (by decide) ⟨_, rfl⟩
  exact (h.2.2.2.2.2.2.2 e
    (h.2.2.2.2.2.2.1 ["good answer".toList, "good answer".toList] e rfl
      (by decide) he)).2

theorem C4_greedy_pack_properties_witness :
    2 ≤ (reducePack 1 ((["a".toList, "b".toList]).map tagOutput)).length :=
  (C4_greedy_pack_properties ["a".toList, "b".toList] 1).2.2.2
    (by decide) (by decide)

theorem C5_global_total_chunks_witness :
    SplitDoc.mk "a".toList "n".toList "p".toList 1 1 1 1
        ∈ split_documents (fun s => [s])
            [Document.mk "a".toList "n".toList "p".toList]
    ∧ (SplitDoc.mk "a".toList "n".toList "p".toList 1 1 1 1).global_total_chunks
        = (split_documents (fun s => [s])
            [Document.mk "a".toList "n".toList "p".toList]).length :=
  ⟨by decide,
    C5_global_total_chunks (fun s => [s])
      [Document.mk "a".toList "n".toList "p".toList]
      (SplitDoc.mk "a".toList "n".toList "p".toList 1 1 1 1) (by decide)⟩

theorem C6_routing_partition_witness :
    ((SplitDoc.mk "a".toList "n".toList "p".toList 1 1 1 1).total_local_chunks
        = 1
      ∧ SplitDoc.mk "a".toList "n".toList "p".toList 1 1 1 1
          ∈ complete_chunks (split_documents (fun s => [s])
              [Document.mk "a".toList "n".toList "p".toList])
      ∧ SplitDoc.mk "a".toList "n".toList "p".toList 1 1 1 1
          ∉ multi_chunks (split_documents (fun s => [s])
              [Document.mk "a".toList "n".toList "p".toList]))
    ∨ (1 < (SplitDoc.mk "a".toList "n".toList "p".toList 1 1 1
          1).total_local_chunks
      ∧ SplitDoc.mk "a".toList "n".toList "p".toList 1 1 1 1
          ∈ multi_chunks (split_documents (fun s => [s])
              [Document.mk "a".toList "n".toList "p".toList])
      ∧ SplitDoc.mk "a".toList "n".toList "p".toList 1 1 1 1
          ∉ complete_chunks (split_documents (fun s => [s])
              [Document.mk "a".toList "n".toList "p".toList])) :=
  C6_routing_partition (fun s => [s])
    [Document.mk "a".toList "n".toList "p".toList]
    (SplitDoc.mk "a".toList "n".toList "p".toList 1 1 1 1) (by decide)

theorem C7_complete_grouping_witness :
    sumLen [SplitDoc.mk "ab".toList "f1".toList "p1".toList 1 1 1 3,
        SplitDoc.mk "cd".toList "f2".toList "p2".toList 1 1 2 3] ≤ 5 :=
  (C7_complete_grouping
      [SplitDoc.mk "ab".toList "f1".toList "p1".toList 1 1 1 3,
        SplitDoc.mk "cd".toList "f2".toList "p2".toList 1 1 2 3,
        SplitDoc.mk "efgh".toList "f3".toList "p3".toList 1 1 3 3] 5).2.2.1
    [SplitDoc.mk "ab".toList "f1".toList "p1".toList 1 1 1 3,
      SplitDoc.mk "cd".toList "f2".toList "p2".toList 1 1 2 3]
    (by decide) (by decide)

theorem C9_crawl_skip_continue_witness :
    crawl_directory_to_documents
        (fun p => if p = "bad".toList then Except.error "boom".toList
          else Except.ok "text".toList)
        (fun _ => true)
        ([FileEntry.mk "g".toList "good".toList]
          ++ FileEntry.mk "b".toList "bad".toList
            :: [FileEntry.mk "g2".toList "good2".toList])
      = crawl_directory_to_documents
          (fun p => if p = "bad".toList then Except.error "boom".toList
            else Except.ok "text".toList)
          (fun _ => true) [FileEntry.mk "g".toList "good".toList]
        ++ crawl_directory_to_documents
            (fun p => if p = "bad".toList then Except.error "boom".toList
              else Except.ok "text".toList)
            (fun _ => true) [FileEntry.mk "g2".toList "good2".toList] :=
  C9_crawl_skip_continue
    (fun p => if p = "bad".toList then Except.error "boom".toList
      else Except.ok "text".toList)
    (fun _ => true)
    [FileEntry.mk "g".toList "good".toList]
    [FileEntry.mk "g2".toList "good2".toList]
    (FileEntry.mk "b".toList "bad".toList)
    (Or.inl ⟨"boom".toList, rfl⟩)

theorem C10_no_map_outputs_witness :
    main_run (fun _ => some "x".toList) (fun s => [s]) [] "q".toList 10 5 3
        (some "out".toList) = RunResult.noMapOutputs :=
  (C10_no_map_outputs (fun _ => some "x".toList) (fun s => [s]) []
      "q".toList 10 5 3 (some "out".toList) rfl).1


end MapReduce
